import Mathlib

/-!
Verification of the desired-state compiler and log-capture utilities of
`slurmcompose` (files `slurmcompose/launch_literegistry_cluster.py` and
`slurmcompose/view.py`), via a shallow embedding in Lean 4.

The embedding models:
* topology configuration entries (`Config`): a device name, a workload
  reference (`script_spec` name or `inline_config` payload) and a target
  count;
* the workload-spec catalog `cluster.script_specs` as an insertion-ordered
  association list with Python-dict assignment semantics (`dictInsert`);
* `expand_device_wildcards` (glob expansion of device patterns against the
  device catalog, with warnings for patterns matching nothing);
* `process_inline_configs` (registration of inline workload definitions
  under counter-generated or explicit names);
* `load_topology` / `prep_cluster` / `main_func` mode dispatch;
* `GatewayLogCapture.write` from `view.py` (line buffering into a
  `deque(maxlen=100)` of timestamped entries).

Glob matching embeds the semantics of Python's `fnmatch.fnmatch` on POSIX
(where `normcase` is the identity): `*` matches any sequence, `?` any single
character, `[...]`/`[!...]` character classes with ranges, and an
unterminated `[` is a literal character.
-/

namespace Slurmcompose

/-- An inline workload definition (the `inline_config` dictionary of a
topology entry): an optional `name` key, plus the remaining payload fields.
The whole value (including `name`) is what gets registered in the catalog. -/
structure WorkloadSpec where
  name : Option String
  fields : List (String × String)
deriving DecidableEq, Repr

/-- The workload part of a topology entry: either a reference to an existing
spec by name (`script_spec` key) or an inline definition (`inline_config`
key). -/
inductive SpecRef where
  | scriptSpec (s : String)
  | inlineConfig (w : WorkloadSpec)
deriving DecidableEq, Repr

/-- One topology configuration entry: device name (possibly a glob pattern),
workload reference, and target count. -/
structure Config where
  device_name : String
  ref : SpecRef
  count : Nat
deriving DecidableEq, Repr

/-- The workload-spec catalog `cluster.script_specs`: a Python dict modelled
as an insertion-ordered association list with unique keys. -/
abbrev Catalog := List (String × WorkloadSpec)

/-- Python dict assignment `d[k] = v`: overwrite in place if the key is
present, else append at the end. -/
def dictInsert (cat : Catalog) (k : String) (v : WorkloadSpec) : Catalog :=
  if cat.any (fun p => p.1 == k) then
    cat.map (fun p => if p.1 == k then (k, v) else p)
  else
    cat ++ [(k, v)]

/-- Python dict lookup `d[k]` (as an `Option`). -/
def dictGet (cat : Catalog) (k : String) : Option WorkloadSpec :=
  (cat.find? (fun p => p.1 == k)).map (fun p => p.2)

/-! ### Glob matching (`fnmatch.fnmatch` on POSIX) -/

/-- A compiled glob-pattern token. -/
inductive GlobTok where
  | lit (c : Char)
  | anyChar
  | star
  | cls (neg : Bool) (ranges : List (Char × Char))
deriving DecidableEq, Repr

/-- Turn the body of a `[...]` character class into a list of ranges:
`a-b` is a range, any other character is a singleton range `(c, c)`, and a
hyphen that cannot form a range (at the start or end of the body) is a
literal member, mirroring `fnmatch.translate`'s chunking of class bodies. -/
def parseRanges : List Char → List (Char × Char)
  | [] => []
  | [a] => [(a, a)]
  | a :: '-' :: b :: rest => (a, b) :: parseRanges rest
  | a :: rest => (a, a) :: parseRanges rest

/-- Strip the optional negating `!` that may start a character-class body,
returning whether it was present and the remaining characters. -/
def classNeg (cs : List Char) : Bool × List Char :=
  if cs.head? = some '!' then (true, cs.tail) else (false, cs)

/-- Number of leading characters of a class body (after the optional `!`)
that are literal members even when they are `]`: `fnmatch.translate` treats
a `]` in the first position as an ordinary member. -/
def classSkip (cs : List Char) : Nat :=
  if cs.head? = some ']' then 1 else 0

/-- Parse a character class from the characters following `[`, mirroring
`fnmatch.translate`: an optional leading `!` negates; a `]` right after that
is an ordinary member; the class body runs to the next `]`. Returns `none`
when no closing `]` exists, in which case `[` is a literal character. -/
def parseClass (cs : List Char) : Option (Bool × List (Char × Char) × List Char) :=
  match ((classNeg cs).2.drop (classSkip (classNeg cs).2)).findIdx? (fun c => c = ']') with
  | none => none
  | some j =>
      some ((classNeg cs).1,
            parseRanges ((classNeg cs).2.take (classSkip (classNeg cs).2 + j)),
            (classNeg cs).2.drop (classSkip (classNeg cs).2 + j + 1))

/-- Compile a glob pattern into tokens, mirroring `fnmatch.translate`:
`*` and `?` are wildcards, `[` starts a character class when terminated and
is a literal otherwise, and every other character is a literal. The fuel
argument makes the recursion structural; each step consumes at least one
pattern character (`parseClass_length_le`), so fuel `cs.length` suffices and
the fuel-exhausted branch is unreachable from `compileGlob`. -/
def compileGlobFuel : Nat → List Char → List GlobTok
  | 0, _ => []
  | fuel + 1, cs =>
    match cs with
    | [] => []
    | '*' :: rest => .star :: compileGlobFuel fuel rest
    | '?' :: rest => .anyChar :: compileGlobFuel fuel rest
    | '[' :: rest =>
      match parseClass rest with
      | some (neg, rs, r) => .cls neg rs :: compileGlobFuel fuel r
      | none => .lit '[' :: compileGlobFuel fuel rest
    | c :: rest => .lit c :: compileGlobFuel fuel rest

/-- Compile a glob pattern into tokens (see `compileGlobFuel`). -/
def compileGlob (cs : List Char) : List GlobTok :=
  compileGlobFuel cs.length cs

/-- Does a character fall in the class described by `neg`/`ranges`?
Ranges compare by code point, as in the regex produced by
`fnmatch.translate`; a reversed range matches nothing. -/
def matchCls (neg : Bool) (ranges : List (Char × Char)) (c : Char) : Bool :=
  let mem := ranges.any (fun p => decide (p.1 ≤ c) && decide (c ≤ p.2))
  if neg then !mem else mem

/-- Match a compiled glob pattern against a string (as characters):
full-string matching, as `fnmatch` compiles to `re.fullmatch` semantics.
The fuel argument makes the recursion structural; every recursive call
strictly decreases `ts.length + s.length`, so fuel
`ts.length + s.length + 1` suffices and the fuel-exhausted branch is
unreachable from `matchToks`. -/
def matchToksFuel : Nat → List GlobTok → List Char → Bool
  | 0, _, _ => false
  | fuel + 1, ts, s =>
    match ts, s with
    | [], [] => true
    | [], _ :: _ => false
    | .star :: ts', [] => matchToksFuel fuel ts' []
    | .star :: ts', c :: s' =>
        matchToksFuel fuel ts' (c :: s') || matchToksFuel fuel (.star :: ts') s'
    | .anyChar :: _, [] => false
    | .anyChar :: ts', _ :: s' => matchToksFuel fuel ts' s'
    | .lit _ :: _, [] => false
    | .lit c :: ts', d :: s' => c == d && matchToksFuel fuel ts' s'
    | .cls _ _ :: _, [] => false
    | .cls neg rs :: ts', d :: s' => matchCls neg rs d && matchToksFuel fuel ts' s'

/-- Match a compiled glob pattern against a string (see `matchToksFuel`). -/
def matchToks (ts : List GlobTok) (s : List Char) : Bool :=
  matchToksFuel (ts.length + s.length + 1) ts s

/-- `fnmatch.fnmatch(name, pattern)` on POSIX (case-sensitive). -/
def fnmatch (name pattern : String) : Bool :=
  matchToks (compileGlob pattern.data) name.data

/-! ### `expand_device_wildcards` (launch_literegistry_cluster.py, 286-338) -/

/-- `'*' in device_name or '?' in device_name`: the repository's test for a
wildcard device name. -/
def hasWildcard (s : String) : Bool :=
  s.data.contains '*' || s.data.contains '?'

/-- The loop body of `expand_device_wildcards`: walk the configuration list,
accumulating `expanded_configs` (and the device patterns for which a
no-match warning was printed). A wildcard entry is replaced by one copy per
matching device (devices taken in catalog order, as
`list(cluster.devices_specs.keys())`); a wildcard entry matching nothing is
skipped with a warning; a non-wildcard entry is passed through. -/
def expandAux (devices : List String) :
    List Config → List Config → List String → List Config × List String
  | [], acc, warns => (acc, warns)
  | config :: rest, acc, warns =>
    if hasWildcard config.device_name then
      let matching_devices := devices.filter (fun d => fnmatch d config.device_name)
      if matching_devices.isEmpty then
        expandAux devices rest acc (warns ++ [config.device_name])
      else
        expandAux devices rest
          (acc ++ matching_devices.map (fun d => { config with device_name := d })) warns
    else
      expandAux devices rest (acc ++ [config]) warns

/-- `expand_device_wildcards(configurations, cluster)`: expand wildcard
device names into specific device configurations. Alongside the expanded
list we return the list of patterns that produced a no-match warning
(the code prints these warnings rather than raising). The guard mirrors
`if not configurations: return configurations`. -/
def expand_device_wildcards (configurations : List Config) (devices : List String) :
    List Config × List String :=
  if configurations.isEmpty then (configurations, [])
  else expandAux devices configurations [] []

/-! ### `process_inline_configs` (launch_literegistry_cluster.py, 341-389) -/

/-- The name under which an inline config is registered: the counter name
`f"inline_config_{inline_counter}"`, overridden by the `name` field when one
is present (the check against existing catalog names is commented out in
the source). -/
def inlineName (counter : Nat) (w : WorkloadSpec) : String :=
  match w.name with
  | some n => n
  | none => "inline_config_" ++ toString counter

/-- The loop body of `process_inline_configs`: walk the configuration list
with the `inline_counter` and the catalog, accumulating `processed_configs`.
An inline entry bumps the counter, registers the inline config in the
catalog under `inlineName` (plain dict assignment — overwrites an existing
key), and is rewritten to reference that name; other entries pass through. -/
def processAux : List Config → Nat → Catalog → List Config → List Config × Catalog
  | [], _, cat, acc => (acc, cat)
  | config :: rest, counter, cat, acc =>
    match config.ref with
    | .inlineConfig w =>
      let counter' := counter + 1
      let config_name := inlineName counter' w
      processAux rest counter' (dictInsert cat config_name w)
        (acc ++ [{ config with ref := .scriptSpec config_name }])
    | .scriptSpec _ => processAux rest counter cat (acc ++ [config])

/-- `process_inline_configs(configurations, cluster)`: register inline
configs with the cluster and rewrite entries to reference the registered
names. Returns the processed configurations and the updated
`cluster.script_specs` catalog. The guard mirrors
`if not configurations: return configurations`. -/
def process_inline_configs (configurations : List Config) (cat : Catalog) :
    List Config × Catalog :=
  if configurations.isEmpty then (configurations, cat)
  else processAux configurations 0 cat []

/-! ### `load_topology`, `prep_cluster`, `main_func` -/

/-- The cluster state visible to the desired-state compiler: the
workload-spec catalog `cluster.script_specs` and the device-name keys of
`cluster.devices_specs`. -/
structure ClusterState where
  script_specs : Catalog
  devices : List String
deriving DecidableEq, Repr

/-- A parsed YAML topology document, as far as `load_topology`
distinguishes: a list, a mapping (with, or without, a `configurations`
key), or any other value. -/
inductive YamlData where
  | list (cs : List Config)
  | dict (configurations : Option (List Config))
  | scalar
deriving DecidableEq, Repr

/-- `load_topology(topology_file)` (launch_literegistry_cluster.py,
261-283): `none` input models no topology file (return `None`); a dict with
a `configurations` key yields that value; a list yields itself; anything
else raises `ValueError`. -/
def load_topology : Option YamlData → Except String (Option (List Config))
  | none => .ok none
  | some (.dict (some cs)) => .ok (some cs)
  | some (.list cs) => .ok (some cs)
  | some (.dict none) =>
      .error "Topology file must contain a configurations key or be a list"
  | some .scalar =>
      .error "Topology file must contain a configurations key or be a list"

/-- The compilation pipeline inside `prep_cluster`
(launch_literegistry_cluster.py, 426-434): wildcard expansion first, then
inline-config processing, each guarded by `if configurations:`. Returns the
processed configurations, the updated cluster state, and the expansion
warnings. -/
def compilePipeline (cfgs : List Config) (cluster : ClusterState) :
    List Config × ClusterState × List String :=
  let p1 := if cfgs.isEmpty then (cfgs, [])
            else expand_device_wildcards cfgs cluster.devices
  let p2 := if p1.1.isEmpty then (p1.1, cluster.script_specs)
            else process_inline_configs p1.1 cluster.script_specs
  (p2.1, { cluster with script_specs := p2.2 }, p1.2)

/-- `prep_cluster` (launch_literegistry_cluster.py, 392-440), restricted to
its topology-processing effect on the freshly initialized cluster state:
load the topology (a `ValueError` from `load_topology` propagates before
any catalog mutation, so the state is returned untouched alongside the
error), then run the compilation pipeline. -/
def prep_cluster (topology : Option YamlData) (cluster : ClusterState) :
    Except String (Option (List Config)) × ClusterState × List String :=
  match load_topology topology with
  | .error e => (.error e, cluster, [])
  | .ok none => (.ok none, cluster, [])
  | .ok (some cfgs) =>
      let r := compilePipeline cfgs cluster
      (.ok (some r.1), r.2.1, r.2.2)

/-- An externally visible action of `main_func` beyond compilation: starting
the reconciling cluster launch (`launch_cluster`), terminating all jobs
(`CLUSTER.terminate()`), or handing a generated script to a terminal
(`launch_run`). `plan` mode performs none of these. -/
inductive SchedAction where
  | launchCluster
  | terminateAll
  | execRun
deriving DecidableEq, Repr

/-- The mode dispatch of `main_func` (launch_literegistry_cluster.py,
442-527), restricted to cluster-state effects and external actions: every
recognized mode first runs `prep_cluster`; `apply` then launches the
cluster, `destroy` terminates all jobs, `plan` only pretty-prints the
configurations, `run` hands off a single script; an unrecognized mode
raises `ValueError`. An error from `prep_cluster` propagates, leaving the
state as `prep_cluster` left it and performing no action. -/
def main_func (mode : String) (topology : Option YamlData) (cluster : ClusterState) :
    Except String (Option (List Config) × ClusterState × List SchedAction) :=
  if mode = "apply" ∨ mode = "destroy" ∨ mode = "plan" ∨ mode = "run" then
    match prep_cluster topology cluster with
    | (.error e, _, _) => .error e
    | (.ok cfgs, st, _) =>
        let acts : List SchedAction :=
          if mode = "apply" then [.launchCluster]
          else if mode = "destroy" then [.terminateAll]
          else if mode = "run" then [.execRun]
          else []
        .ok (cfgs, st, acts)
  else
    .error ("Invalid mode: " ++ mode)

/-! ### `GatewayLogCapture` (view.py, 90-126)

The capture object buffers written text; each complete (newline-terminated)
line is stripped and, when non-empty, appended to the shared log deque as a
timestamped entry. The deque is `GATEWAY_LOGS = deque(maxlen=100)`
(launch_literegistry_cluster.py, 32). Timestamps come from
`datetime.now()`; they are abstracted here as a string parameter (their
value does not affect buffering or deque length). The optional echo to the
original stream does not affect the buffer or the deque and is not
modelled. -/

/-- Python whitespace for `str.strip()` (restricted to the ASCII range;
the inputs of interest contain no non-ASCII whitespace). -/
def isPySpace (c : Char) : Bool :=
  c = ' ' || c = '\t' || c = '\n' || c = '\r' || c = '\x0b' || c = '\x0c'

/-- `str.strip()` with no argument: remove leading and trailing
whitespace. -/
def pyStrip (cs : List Char) : List Char :=
  ((cs.dropWhile isPySpace).reverse.dropWhile isPySpace).reverse

/-- The timestamped deque entry `f"[{timestamp}] {line}"` for a stripped
line. -/
def logEntry (ts : String) (line : List Char) : String :=
  "[" ++ ts ++ "] " ++ String.mk line

/-- `deque(maxlen=100).append`, generalized over the bound: append on the
right, discarding elements on the left so that at most `maxlen` remain. -/
def dequeAppend (maxlen : Nat) (logs : List String) (x : String) : List String :=
  let l := logs ++ [x]
  l.drop (l.length - maxlen)

/-- State of a `GatewayLogCapture` object together with its log deque:
the internal `buffer` string and the contents of `log_deque`. -/
structure LogState where
  buffer : List Char
  logs : List String
deriving DecidableEq, Repr

/-- The `while '\n' in self.buffer` loop of `GatewayLogCapture.write`:
split off the text before the first newline (`self.buffer.split('\n', 1)`),
strip it, and append a timestamped entry to the deque when the stripped
line is non-empty. The fuel argument makes the recursion structural; each
iteration removes at least the newline, so fuel `buf.length` suffices and
the fuel-exhausted branch is unreachable from `write`. -/
def drainFuel (ts : String) : Nat → List Char → List String → List Char × List String
  | 0, buf, logs => (buf, logs)
  | fuel + 1, buf, logs =>
    if '\n' ∈ buf then
      let line := buf.takeWhile (fun c => c ≠ '\n')
      let rest := (buf.dropWhile (fun c => c ≠ '\n')).tail
      let stripped := pyStrip line
      let logs' := if stripped.isEmpty then logs
                   else dequeAppend 100 logs (logEntry ts stripped)
      drainFuel ts fuel rest logs'
    else (buf, logs)

/-- `GatewayLogCapture.write(text)`: append `text` to the buffer, then
process complete lines (see `drainFuel`). `ts` abstracts the
`datetime.now()` timestamp used for entries appended during this call. -/
def write (ts : String) (st : LogState) (text : String) : LogState :=
  let buf := st.buffer ++ text.data
  let r := drainFuel ts buf.length buf st.logs
  ⟨r.1, r.2⟩

/-- Decompose a buffer into its complete (newline-terminated) lines and the
remainder after the last newline, by the same first-newline recursion as
`drainFuel`. -/
def completeLinesFuel : Nat → List Char → List (List Char) × List Char
  | 0, buf => ([], buf)
  | fuel + 1, buf =>
    if '\n' ∈ buf then
      let line := buf.takeWhile (fun c => c ≠ '\n')
      let rest := (buf.dropWhile (fun c => c ≠ '\n')).tail
      let r := completeLinesFuel fuel rest
      (line :: r.1, r.2)
    else ([], buf)

/-- The complete lines of a buffer and the trailing remainder. -/
def completeLines (buf : List Char) : List (List Char) × List Char :=
  completeLinesFuel buf.length buf

/-- The deque entries contributed by a list of complete lines: one per line
whose stripped content is non-empty. -/
def lineEntries (ts : String) (lines : List (List Char)) : List String :=
  lines.filterMap (fun l =>
    if (pyStrip l).isEmpty then none else some (logEntry ts (pyStrip l)))

/-- The expansion of a single configuration entry: a non-wildcard entry is
itself; a wildcard entry becomes one copy per matching device, in the
device catalog's order. -/
def expandEntry (devices : List String) (c : Config) : List Config :=
  if hasWildcard c.device_name then
    (devices.filter (fun d => fnmatch d c.device_name)).map
      (fun d => { c with device_name := d })
  else [c]

/-- The warning emitted for a single configuration entry: its pattern, when
it is a wildcard matching no device. -/
def expandWarn (devices : List String) (c : Config) : List String :=
  if hasWildcard c.device_name ∧
      (devices.filter (fun d => fnmatch d c.device_name)).isEmpty then
    [c.device_name]
  else []

/-- Is a workload reference an inline definition? -/
def isInline : SpecRef → Bool
  | .inlineConfig _ => true
  | .scriptSpec _ => false

/-- The counter-generated names `inline_config_(k+1), ..., inline_config_(k+n)`
assigned to a run of `n` inline entries processed after `k` earlier ones. -/
def counterNames : Nat → Nat → List String
  | _, 0 => []
  | k, n + 1 => ("inline_config_" ++ toString (k + 1)) :: counterNames (k + 1) n

/-- Register one workload spec under each of a list of names, in order. -/
def insertAll (cat : Catalog) (ns : List String) (w : WorkloadSpec) : Catalog :=
  ns.foldl (fun c n => dictInsert c n w) cat

/-! ## Theorems -/

theorem classNeg_length_le (cs : List Char) : (classNeg cs).2.length ≤ cs.length := by
  unfold classNeg
  split
  · simp [List.length_tail]
  · simp

theorem parseClass_length_le {cs rest : List Char} {neg : Bool}
    {rs : List (Char × Char)} (h : parseClass cs = some (neg, rs, rest)) :
    rest.length ≤ cs.length := by
  unfold parseClass at h
  rcases hf : ((classNeg cs).2.drop (classSkip (classNeg cs).2)).findIdx? (fun c => c = ']')
    with _ | j
  · rw [hf] at h; exact absurd h (by simp)
  · rw [hf] at h
    have hrest : rest = (classNeg cs).2.drop (classSkip (classNeg cs).2 + j + 1) := by
      cases h; rfl
    subst hrest
    calc ((classNeg cs).2.drop (classSkip (classNeg cs).2 + j + 1)).length
        ≤ (classNeg cs).2.length := by rw [List.length_drop]; omega
      _ ≤ cs.length := classNeg_length_le cs

/-! ### Wildcard expansion -/

theorem expandAux_eq (devices : List String) (cfgs acc : List Config)
    (warns : List String) :
    expandAux devices cfgs acc warns
      = (acc ++ cfgs.flatMap (fun c => expandEntry devices c),
         warns ++ cfgs.flatMap (fun c => expandWarn devices c)) := by
  induction cfgs generalizing acc warns with
  | nil => simp [expandAux]
  | cons c rest ih =>
    by_cases hw : hasWildcard c.device_name = true
    · by_cases hm : (devices.filter (fun d => fnmatch d c.device_name)).isEmpty = true
      · have hf : devices.filter (fun d => fnmatch d c.device_name) = [] :=
          List.isEmpty_iff.mp hm
        have hall : ∀ a ∈ devices, fnmatch a c.device_name = false := by
          simpa [List.filter_eq_nil_iff] using hf
        simp [expandAux, hw, hf, ih, expandEntry, expandWarn]
        rw [if_pos hall]
        simp
      · have hne : devices.filter (fun d => fnmatch d c.device_name) ≠ [] := by
          simpa [List.isEmpty_iff] using hm
        have hex : ∃ x ∈ devices, fnmatch x c.device_name = true := by
          rcases List.exists_mem_of_ne_nil _ hne with ⟨d, hd⟩
          exact ⟨d, (List.mem_filter.mp hd).1, (List.mem_filter.mp hd).2⟩
        simp [expandAux, hw, hm, ih, expandEntry, expandWarn, hex]
    · simp [expandAux, hw, ih, expandEntry, expandWarn]

theorem expand_eq_flatMap (cfgs : List Config) (devices : List String) :
    expand_device_wildcards cfgs devices
      = (cfgs.flatMap (fun c => expandEntry devices c),
         cfgs.flatMap (fun c => expandWarn devices c)) := by
  unfold expand_device_wildcards
  by_cases h : cfgs.isEmpty = true
  · have : cfgs = [] := List.isEmpty_iff.mp h
    subst this; simp
  · simp only [h]
    simpa using expandAux_eq devices cfgs [] []

/-- C9: `expand_device_wildcards` returns each entry whose device name has
no wildcard character unchanged and preserves the relative order of
entries: the result is the entry-wise expansion, where a non-wildcard entry
stays in place and a wildcard entry is replaced in place by one copy per
matching device in the catalog's device-name order. -/
theorem c9_expand_frame_and_order (cfgs : List Config) (devices : List String) :
    (expand_device_wildcards cfgs devices).1
        = cfgs.flatMap (fun c => expandEntry devices c)
      ∧ ∀ c ∈ cfgs, hasWildcard c.device_name = false → expandEntry devices c = [c] := by
  refine ⟨by rw [expand_eq_flatMap], ?_⟩
  intro c _ hw
  simp [expandEntry, hw]

/-- C2: a wildcard entry is matched against all known device names by glob
semantics and, when it matches at least one device, expands into exactly
one entry per matching device, each with the original entry's count (and
workload reference) unchanged; concretely, pattern `*-4` against the
catalog `a40-4, l40-4, l40s-4, a40-8` matches exactly
`a40-4, l40-4, l40s-4`. -/
theorem c2_wildcard_expansion (cfg : Config) (devices : List String)
    (hw : hasWildcard cfg.device_name = true)
    (hm : devices.filter (fun d => fnmatch d cfg.device_name) ≠ []) :
    (expand_device_wildcards [cfg] devices).1
        = (devices.filter (fun d => fnmatch d cfg.device_name)).map
            (fun d => { cfg with device_name := d })
      ∧ (expand_device_wildcards [cfg] devices).1.length
          = (devices.filter (fun d => fnmatch d cfg.device_name)).length
      ∧ (∀ e ∈ (expand_device_wildcards [cfg] devices).1,
          e.count = cfg.count ∧ e.ref = cfg.ref)
      ∧ ["a40-4", "l40-4", "l40s-4", "a40-8"].filter (fun d => fnmatch d "*-4")
          = ["a40-4", "l40-4", "l40s-4"] := by
  have he : (expand_device_wildcards [cfg] devices).1
      = (devices.filter (fun d => fnmatch d cfg.device_name)).map
          (fun d => { cfg with device_name := d }) := by
    rw [expand_eq_flatMap]
    simp [expandEntry, hw]
  refine ⟨he, by rw [he]; simp, ?_, by decide⟩
  intro e he'
  rw [he] at he'
  rcases List.mem_map.mp he' with ⟨d, _, rfl⟩
  exact ⟨rfl, rfl⟩

/-- C2 witness: the theorem at pattern `*-4`, catalog
`a40-4, l40-4, l40s-4, a40-8`, count 7. -/
theorem c2_wildcard_expansion_witness :
    (expand_device_wildcards [⟨"*-4", .scriptSpec "llama8b", 7⟩]
        ["a40-4", "l40-4", "l40s-4", "a40-8"]).1
      = [⟨"a40-4", .scriptSpec "llama8b", 7⟩, ⟨"l40-4", .scriptSpec "llama8b", 7⟩,
         ⟨"l40s-4", .scriptSpec "llama8b", 7⟩] := by
  have h := c2_wildcard_expansion ⟨"*-4", .scriptSpec "llama8b", 7⟩
    ["a40-4", "l40-4", "l40s-4", "a40-8"] (by decide) (by decide)
  rw [h.1]
  decide

/-- C6: a wildcard entry matching zero devices is dropped with exactly one
reported warning (recording its pattern) rather than a fatal error:
expansion produces no entries for it, and the entries before and after it
in the topology are still processed to exactly their usual expansions. -/
theorem c6_zero_match_dropped (pre post : List Config) (cfg : Config)
    (devices : List String)
    (hw : hasWildcard cfg.device_name = true)
    (hm : devices.filter (fun d => fnmatch d cfg.device_name) = []) :
    (expand_device_wildcards (pre ++ cfg :: post) devices).1
        = (expand_device_wildcards pre devices).1
            ++ (expand_device_wildcards post devices).1
      ∧ (expand_device_wildcards (pre ++ cfg :: post) devices).2
          = (expand_device_wildcards pre devices).2
              ++ cfg.device_name :: (expand_device_wildcards post devices).2 := by
  have hentry : expandEntry devices cfg = [] := by
    simp [expandEntry, hw, hm]
  have hwarn : expandWarn devices cfg = [cfg.device_name] := by
    simp [expandWarn, hw, hm]
  rw [expand_eq_flatMap, expand_eq_flatMap, expand_eq_flatMap]
  constructor
  · simp [List.flatMap_append, hentry]
  · simp [List.flatMap_append, hwarn]

/-- C6 witness: the theorem with a no-match pattern `h100-*` between two
concrete entries, against catalog `a40-4, l40-4`. -/
theorem c6_zero_match_dropped_witness :
    (expand_device_wildcards
        [⟨"a40-4", .scriptSpec "a", 1⟩, ⟨"h100-*", .scriptSpec "b", 2⟩,
         ⟨"l40-4", .scriptSpec "c", 3⟩] ["a40-4", "l40-4"]).1
        = (expand_device_wildcards [⟨"a40-4", .scriptSpec "a", 1⟩] ["a40-4", "l40-4"]).1
            ++ (expand_device_wildcards [⟨"l40-4", .scriptSpec "c", 3⟩] ["a40-4", "l40-4"]).1
      ∧ (expand_device_wildcards
          [⟨"a40-4", .scriptSpec "a", 1⟩, ⟨"h100-*", .scriptSpec "b", 2⟩,
           ⟨"l40-4", .scriptSpec "c", 3⟩] ["a40-4", "l40-4"]).2
          = (expand_device_wildcards [⟨"a40-4", .scriptSpec "a", 1⟩] ["a40-4", "l40-4"]).2
              ++ "h100-*" :: (expand_device_wildcards [⟨"l40-4", .scriptSpec "c", 3⟩]
                  ["a40-4", "l40-4"]).2 :=
  c6_zero_match_dropped [⟨"a40-4", .scriptSpec "a", 1⟩] [⟨"l40-4", .scriptSpec "c", 3⟩]
    ⟨"h100-*", .scriptSpec "b", 2⟩ ["a40-4", "l40-4"] (by decide) (by decide)

/-! ### Inline-config processing and the pipeline -/

theorem processAux_fst_cat (cfgs : List Config) (counter : Nat)
    (cat cat' : Catalog) (acc : List Config) :
    (processAux cfgs counter cat acc).1 = (processAux cfgs counter cat' acc).1 := by
  induction cfgs generalizing counter cat cat' acc with
  | nil => simp [processAux]
  | cons c rest ih =>
    cases hr : c.ref with
    | inlineConfig w => simp only [processAux, hr]; exact ih _ _ _ _
    | scriptSpec s => simp only [processAux, hr]; exact ih _ _ _ _

theorem processAux_no_inline (cfgs : List Config) (counter : Nat) (cat : Catalog)
    (acc : List Config) (h : ∀ c ∈ cfgs, isInline c.ref = false) :
    processAux cfgs counter cat acc = (acc ++ cfgs, cat) := by
  induction cfgs generalizing counter cat acc with
  | nil => simp [processAux]
  | cons c rest ih =>
    cases hr : c.ref with
    | inlineConfig w =>
      have := h c (by simp)
      rw [hr] at this
      simp [isInline] at this
    | scriptSpec s =>
      simp only [processAux, hr]
      rw [ih counter cat (acc ++ [c]) (fun c hc => h c (List.mem_cons_of_mem _ hc))]
      simp

theorem processAux_inline_run (ds : List String) (w : WorkloadSpec)
    (hn : w.name = none) (cnt : Nat) (k : Nat) (cat : Catalog) (acc : List Config) :
    processAux (ds.map (fun d => ⟨d, .inlineConfig w, cnt⟩)) k cat acc
      = (acc ++ (ds.zip (counterNames k ds.length)).map
            (fun p => ⟨p.1, .scriptSpec p.2, cnt⟩),
         insertAll cat (counterNames k ds.length) w) := by
  induction ds generalizing k cat acc with
  | nil => simp [processAux, counterNames, insertAll]
  | cons d rest ih =>
    have hname : inlineName (k + 1) w = "inline_config_" ++ toString (k + 1) := by
      simp [inlineName, hn]
    simp only [List.map_cons, processAux, hname]
    rw [ih]
    simp [counterNames, insertAll, List.length_cons]

theorem flatMap_expandEntry_no_wildcard (cfgs : List Config) (devices : List String)
    (hw : ∀ c ∈ cfgs, hasWildcard c.device_name = false) :
    cfgs.flatMap (fun c => expandEntry devices c) = cfgs := by
  induction cfgs with
  | nil => simp
  | cons c rest ih =>
    simp only [List.flatMap_cons]
    rw [ih (fun c hc => hw c (List.mem_cons_of_mem _ hc))]
    simp [expandEntry, hw c (by simp)]

theorem expand_no_wildcard (cfgs : List Config) (devices : List String)
    (hw : ∀ c ∈ cfgs, hasWildcard c.device_name = false) :
    (expand_device_wildcards cfgs devices).1 = cfgs := by
  rw [expand_eq_flatMap]
  exact flatMap_expandEntry_no_wildcard cfgs devices hw

theorem process_fst_cat (cfgs : List Config) (cat cat' : Catalog) :
    (process_inline_configs cfgs cat).1 = (process_inline_configs cfgs cat').1 := by
  unfold process_inline_configs
  by_cases h : cfgs.isEmpty = true
  · simp [h]
  · rw [if_neg h, if_neg h]
    exact processAux_fst_cat cfgs 0 cat cat' []

theorem compilePipeline_nil (cl : ClusterState) : compilePipeline [] cl = ([], cl, []) :=
  rfl

theorem compilePipeline_eq_general (cfgs : List Config) (cl : ClusterState)
    (hne : cfgs ≠ [])
    (hne2 : (expand_device_wildcards cfgs cl.devices).1 ≠ []) :
    compilePipeline cfgs cl
      = ((process_inline_configs (expand_device_wildcards cfgs cl.devices).1
            cl.script_specs).1,
         ⟨(process_inline_configs (expand_device_wildcards cfgs cl.devices).1
            cl.script_specs).2, cl.devices⟩,
         (expand_device_wildcards cfgs cl.devices).2) := by
  have h1 : ¬(cfgs.isEmpty = true) := by simpa [List.isEmpty_iff] using hne
  have h2 : ¬((expand_device_wildcards cfgs cl.devices).1.isEmpty = true) := by
    simpa [List.isEmpty_iff] using hne2
  simp only [compilePipeline]
  rw [if_neg h1, if_neg h2]

theorem compilePipeline_empty_expansion (cfgs : List Config) (cl : ClusterState)
    (hne : cfgs ≠ [])
    (h2 : (expand_device_wildcards cfgs cl.devices).1 = []) :
    compilePipeline cfgs cl = ([], cl, (expand_device_wildcards cfgs cl.devices).2) := by
  have h1 : ¬(cfgs.isEmpty = true) := by simpa [List.isEmpty_iff] using hne
  simp only [compilePipeline]
  rw [if_neg h1]
  simp [h2]

/-- C1 counterexample: two topology entries for the same `(device, workload)`
pair with counts 3 and 5 do NOT compile to one entry with count 8: they pass
through as two entries with the same device name and script spec, with
counts 3 and 5. -/
theorem c1_no_merge_counterexample :
    (compilePipeline
        [⟨"l40-8", .scriptSpec "llama8b", 3⟩, ⟨"l40-8", .scriptSpec "llama8b", 5⟩]
        ⟨[], ["l40-8"]⟩).1
      = [⟨"l40-8", .scriptSpec "llama8b", 3⟩, ⟨"l40-8", .scriptSpec "llama8b", 5⟩]
    ∧ (compilePipeline
        [⟨"l40-8", .scriptSpec "llama8b", 3⟩, ⟨"l40-8", .scriptSpec "llama8b", 5⟩]
        ⟨[], ["l40-8"]⟩).1.length = 2
    ∧ (compilePipeline
        [⟨"l40-8", .scriptSpec "llama8b", 3⟩, ⟨"l40-8", .scriptSpec "llama8b", 5⟩]
        ⟨[], ["l40-8"]⟩).1.map Config.count = [3, 5] := by
  decide

/-- C1 (amended): compilation performs no merging of duplicate
`(device, workload)` pairs: a topology whose entries have no wildcard device
names and no inline definitions compiles to exactly itself, duplicates
included, each with its own count. -/
theorem c1_no_merging (cfgs : List Config) (cl : ClusterState)
    (hw : ∀ c ∈ cfgs, hasWildcard c.device_name = false)
    (hr : ∀ c ∈ cfgs, isInline c.ref = false) :
    (compilePipeline cfgs cl).1 = cfgs := by
  by_cases he : cfgs = []
  · subst he
    rfl
  · have hexp : (expand_device_wildcards cfgs cl.devices).1 = cfgs :=
      expand_no_wildcard cfgs cl.devices hw
    rw [compilePipeline_eq_general cfgs cl he (by rw [hexp]; exact he), hexp]
    unfold process_inline_configs
    rw [if_neg (by simpa [List.isEmpty_iff] using he)]
    rw [processAux_no_inline cfgs 0 cl.script_specs [] hr]
    simp

/-- C1 witness: the amended theorem at the concrete 3/5 duplicate topology. -/
theorem c1_no_merging_witness :
    (compilePipeline
        [⟨"l40-8", .scriptSpec "llama8b", 3⟩, ⟨"l40-8", .scriptSpec "llama8b", 5⟩]
        ⟨[], ["l40-8"]⟩).1
      = [⟨"l40-8", .scriptSpec "llama8b", 3⟩, ⟨"l40-8", .scriptSpec "llama8b", 5⟩] :=
  c1_no_merging
    [⟨"l40-8", .scriptSpec "llama8b", 3⟩, ⟨"l40-8", .scriptSpec "llama8b", 5⟩]
    ⟨[], ["l40-8"]⟩ (by decide) (by decide)

/-- C7: the compilation pipeline is deterministic in the topology and the
catalog's device names: its configuration output and warnings do not depend
on the workload-spec catalog, and in particular compiling the same topology
a second time, starting from the cluster state produced by the first
compilation, yields the identical normalized configuration sequence. -/
theorem c7_compile_deterministic (cfgs : List Config) (devs : List String)
    (cat cat' : Catalog) :
    ((compilePipeline cfgs ⟨cat, devs⟩).1 = (compilePipeline cfgs ⟨cat', devs⟩).1
      ∧ (compilePipeline cfgs ⟨cat, devs⟩).2.2 = (compilePipeline cfgs ⟨cat', devs⟩).2.2)
    ∧ (compilePipeline cfgs ((compilePipeline cfgs ⟨cat, devs⟩).2.1)).1
        = (compilePipeline cfgs ⟨cat, devs⟩).1 := by
  have key : ∀ c1 c2 : Catalog,
      (compilePipeline cfgs ⟨c1, devs⟩).1 = (compilePipeline cfgs ⟨c2, devs⟩).1 := by
    intro c1 c2
    by_cases he : cfgs = []
    · subst he; rfl
    · by_cases he2 : (expand_device_wildcards cfgs devs).1 = []
      · rw [compilePipeline_empty_expansion cfgs ⟨c1, devs⟩ he he2,
            compilePipeline_empty_expansion cfgs ⟨c2, devs⟩ he he2]
      · rw [compilePipeline_eq_general cfgs ⟨c1, devs⟩ he he2,
            compilePipeline_eq_general cfgs ⟨c2, devs⟩ he he2]
        exact process_fst_cat (expand_device_wildcards cfgs devs).1 c1 c2
  refine ⟨⟨key cat cat', rfl⟩, ?_⟩
  have hst : (compilePipeline cfgs ⟨cat, devs⟩).2.1
      = ⟨(compilePipeline cfgs ⟨cat, devs⟩).2.1.script_specs, devs⟩ := by
    by_cases he : cfgs = []
    · subst he; rfl
    · by_cases he2 : (expand_device_wildcards cfgs devs).1 = []
      · rw [compilePipeline_empty_expansion cfgs ⟨cat, devs⟩ he he2]
      · rw [compilePipeline_eq_general cfgs ⟨cat, devs⟩ he he2]
  rw [hst]
  exact key _ cat

/-- C3 counterexample: an inline definition attached to the wildcard entry
`*-4` (matching two devices) is registered twice, under the two counter
names `inline_config_1` and `inline_config_2` — not exactly once under one
name before expansion. -/
theorem c3_order_counterexample :
    compilePipeline [⟨"*-4", .inlineConfig ⟨none, []⟩, 2⟩] ⟨[], ["a40-4", "l40-4"]⟩
      = ([⟨"a40-4", .scriptSpec "inline_config_1", 2⟩,
          ⟨"l40-4", .scriptSpec "inline_config_2", 2⟩],
         ⟨[("inline_config_1", ⟨none, []⟩), ("inline_config_2", ⟨none, []⟩)],
          ["a40-4", "l40-4"]⟩,
         []) := by
  decide

/-- C3 (amended): the compiler expands wildcard device names FIRST and only
then registers inline definitions; consequently an inline definition without
an explicit name, attached to a wildcard entry matching N ≥ 1 devices, is
registered once per matched device — N times, under the counter names
`inline_config_1 ... inline_config_N` — and the compiled entries reference
those names device by device. -/
theorem c3_wildcards_before_inline (pattern : String) (w : WorkloadSpec)
    (cnt : Nat) (devices : List String) (cat : Catalog)
    (hn : w.name = none) (hw : hasWildcard pattern = true)
    (hm : devices.filter (fun d => fnmatch d pattern) ≠ []) :
    compilePipeline [⟨pattern, .inlineConfig w, cnt⟩] ⟨cat, devices⟩
      = (((devices.filter (fun d => fnmatch d pattern)).zip
            (counterNames 0 (devices.filter (fun d => fnmatch d pattern)).length)).map
            (fun p => ⟨p.1, .scriptSpec p.2, cnt⟩),
         ⟨insertAll cat
            (counterNames 0 (devices.filter (fun d => fnmatch d pattern)).length) w,
          devices⟩,
         []) := by
  have hex : ∃ x ∈ devices, fnmatch x pattern = true := by
    rcases List.exists_mem_of_ne_nil _ hm with ⟨d, hd⟩
    exact ⟨d, (List.mem_filter.mp hd).1, (List.mem_filter.mp hd).2⟩
  have hexp : expand_device_wildcards [⟨pattern, .inlineConfig w, cnt⟩] devices
      = ((devices.filter (fun d => fnmatch d pattern)).map
          (fun d => ⟨d, .inlineConfig w, cnt⟩), []) := by
    rw [expand_eq_flatMap]
    simp [expandEntry, expandWarn, hw, hex]
  have hne2 : (expand_device_wildcards [(⟨pattern, .inlineConfig w, cnt⟩ : Config)]
      devices).1 ≠ [] := by
    rw [hexp]
    simpa using hm
  rw [compilePipeline_eq_general [⟨pattern, .inlineConfig w, cnt⟩] ⟨cat, devices⟩
      (by simp) hne2]
  dsimp only
  rw [hexp]
  dsimp only
  unfold process_inline_configs
  rw [if_neg (by simpa [List.isEmpty_iff] using hm)]
  rw [processAux_inline_run (devices.filter (fun d => fnmatch d pattern)) w hn cnt 0 cat []]
  simp

/-- C3 witness: the amended theorem at pattern `*-4`, devices
`a40-4, l40-4`, an anonymous inline definition, and an empty catalog. -/
theorem c3_wildcards_before_inline_witness :
    compilePipeline [⟨"*-4", .inlineConfig ⟨none, [("model", "m")]⟩, 2⟩]
        ⟨[], ["a40-4", "l40-4", "a40-8"]⟩
      = (((["a40-4", "l40-4", "a40-8"].filter (fun d => fnmatch d "*-4")).zip
            (counterNames 0
              (["a40-4", "l40-4", "a40-8"].filter (fun d => fnmatch d "*-4")).length)).map
            (fun p => ⟨p.1, .scriptSpec p.2, 2⟩),
         ⟨insertAll []
            (counterNames 0
              (["a40-4", "l40-4", "a40-8"].filter (fun d => fnmatch d "*-4")).length)
            ⟨none, [("model", "m")]⟩,
          ["a40-4", "l40-4", "a40-8"]⟩,
         []) :=
  c3_wildcards_before_inline "*-4" ⟨none, [("model", "m")]⟩ 2
    ["a40-4", "l40-4", "a40-8"] [] rfl (by decide) (by decide)

/-! ### Catalog overwriting -/

theorem dictGet_cons_self (k : String) (v : WorkloadSpec) (cat : Catalog) :
    dictGet ((k, v) :: cat) k = some v := by
  simp [dictGet, List.find?_cons_of_pos]

theorem dictGet_cons_ne (q : String × WorkloadSpec) (cat : Catalog) (n : String)
    (h : ¬(q.1 = n)) : dictGet (q :: cat) n = dictGet cat n := by
  have hb : (q.1 == n) = false := by simpa using h
  simp [dictGet, List.find?_cons_of_neg, hb]

theorem dictGet_map_replace (cat : Catalog) (k : String) (v : WorkloadSpec) (n : String) :
    dictGet (cat.map (fun p => if p.1 == k then (k, v) else p)) n
      = if n = k then (if cat.any (fun p => p.1 == k) then some v else none)
        else dictGet cat n := by
  induction cat with
  | nil => by_cases h : n = k <;> simp [dictGet, h]
  | cons q rest ih =>
    obtain ⟨qk, qv⟩ := q
    by_cases hq : qk = k
    · rw [hq]
      have hh : ((qk, qv) : String × WorkloadSpec).1 = k := hq
      by_cases hn : n = k
      · rw [hn]
        have hmap : ((k, qv) :: rest).map (fun p => if p.1 == k then (k, v) else p)
            = (k, v) :: rest.map (fun p => if p.1 == k then (k, v) else p) := by
          simp
        rw [show ((qk, qv) : String × WorkloadSpec) = (k, qv) from by rw [hq]] at *
        rw [hmap, dictGet_cons_self]
        simp [List.any_cons]
      · have hkn : ¬(((k, v) : String × WorkloadSpec).1 = n) := fun h => hn (h.symm)
        have hkn2 : ¬(((k, qv) : String × WorkloadSpec).1 = n) := fun h => hn (h.symm)
        have hmap : ((k, qv) :: rest).map (fun p => if p.1 == k then (k, v) else p)
            = (k, v) :: rest.map (fun p => if p.1 == k then (k, v) else p) := by
          simp
        rw [show ((qk, qv) : String × WorkloadSpec) = (k, qv) from by rw [hq]] at *
        rw [hmap, dictGet_cons_ne _ _ _ hkn, ih, dictGet_cons_ne _ _ _ hkn2]
        simp [hn]
    · have hmap : ((qk, qv) :: rest).map (fun p => if p.1 == k then (k, v) else p)
          = (qk, qv) :: rest.map (fun p => if p.1 == k then (k, v) else p) := by
        simp [hq]
      rw [hmap]
      by_cases hqn : qk = n
      · rw [hqn] at hq ⊢
        have hnk : ¬(n = k) := hq
        rw [dictGet_cons_self, dictGet_cons_self]
        simp [hnk]
      · have hqn' : ¬(((qk, qv) : String × WorkloadSpec).1 = n) := hqn
        rw [dictGet_cons_ne _ _ _ hqn', ih, dictGet_cons_ne _ _ _ hqn', List.any_cons]
        have hb : (qk == k) = false := by simpa using hq
        simp only [hb, Bool.false_or]

theorem dictGet_dictInsert (cat : Catalog) (k : String) (v : WorkloadSpec) (n : String) :
    dictGet (dictInsert cat k v) n = if n = k then some v else dictGet cat n := by
  unfold dictInsert
  by_cases hany : cat.any (fun p => p.1 == k) = true
  · rw [if_pos hany, dictGet_map_replace, hany]
    by_cases hn : n = k <;> simp [hn]
  · rw [if_neg hany]
    have hnone : List.find? (fun p => p.1 == k) cat = none := by
      rw [List.find?_eq_none]
      intro p hp
      intro hpk
      exact hany (List.any_of_mem hp hpk)
    by_cases hn : n = k
    · subst hn
      simp [dictGet, List.find?_append, hnone]
    · simp [dictGet, List.find?_append, List.find?_cons_of_neg, Ne.symm hn, hn,
        Option.or_none]

/-- C4 counterexample: an inline definition whose explicit name `llama8b`
equals an already-registered workload name silently replaces the existing
catalog entry under that name. -/
theorem c4_overwrite_counterexample :
    (process_inline_configs
        [⟨"l40-8", .inlineConfig ⟨some "llama8b", [("model", "other")]⟩, 1⟩]
        [("llama8b", ⟨none, [("model", "llama3-8b")]⟩)]).2
      = [("llama8b", ⟨some "llama8b", [("model", "other")]⟩)]
    ∧ dictGet
        (process_inline_configs
          [⟨"l40-8", .inlineConfig ⟨some "llama8b", [("model", "other")]⟩, 1⟩]
          [("llama8b", ⟨none, [("model", "llama3-8b")]⟩)]).2 "llama8b"
        ≠ some ⟨none, [("model", "llama3-8b")]⟩ := by
  decide

/-- C4 (amended): registering an inline definition whose explicit name
equals an already-registered workload name silently overwrites the existing
catalog entry under that name in place (every other key is unchanged). -/
theorem c4_explicit_name_overwrites (d : String) (cnt : Nat) (w : WorkloadSpec)
    (n : String) (cat : Catalog) (hn : w.name = some n)
    (hk : cat.any (fun p => p.1 == n) = true) :
    dictGet (process_inline_configs [⟨d, .inlineConfig w, cnt⟩] cat).2 n = some w
    ∧ ∀ m, m ≠ n →
        dictGet (process_inline_configs [⟨d, .inlineConfig w, cnt⟩] cat).2 m
          = dictGet cat m := by
  have hp : (process_inline_configs [(⟨d, .inlineConfig w, cnt⟩ : Config)] cat).2
      = dictInsert cat n w := by
    unfold process_inline_configs
    rw [if_neg (by simp)]
    simp [processAux, inlineName, hn]
  rw [hp]
  constructor
  · rw [dictGet_dictInsert]
    simp
  · intro m hm
    rw [dictGet_dictInsert]
    simp [hm]

/-- C4 witness: the amended theorem at the counterexample's concrete input. -/
theorem c4_explicit_name_overwrites_witness :
    dictGet
      (process_inline_configs
        [⟨"l40-8", .inlineConfig ⟨some "llama8b", [("model", "other")]⟩, 1⟩]
        [("llama8b", ⟨none, [("model", "llama3-8b")]⟩)]).2 "llama8b"
      = some ⟨some "llama8b", [("model", "other")]⟩ :=
  (c4_explicit_name_overwrites "l40-8" 1 ⟨some "llama8b", [("model", "other")]⟩
    "llama8b" [("llama8b", ⟨none, [("model", "llama3-8b")]⟩)] rfl (by decide)).1

/-! ### Topology loading, plan mode -/

/-- C5: a topology document that is neither a list nor a mapping containing
the `configurations` key makes `prep_cluster` fail fast with the structural
`ValueError` from `load_topology`, and this failure happens before any
catalog mutation: the cluster state is returned exactly as it was, no
inline workload spec registered, and no warnings reported. -/
theorem c5_malformed_topology_fails_fast (cl : ClusterState) (d : YamlData)
    (h : d = .dict none ∨ d = .scalar) :
    ∃ e, prep_cluster (some d) cl = (.error e, cl, []) := by
  rcases h with h | h <;> subst h <;>
    exact ⟨"Topology file must contain a configurations key or be a list", rfl⟩

/-- C5 witness: the theorem at a scalar topology document and a non-trivial
cluster state. -/
theorem c5_malformed_topology_fails_fast_witness :
    ∃ e, prep_cluster (some .scalar)
        ⟨[("llama8b", ⟨none, []⟩)], ["l40-8"]⟩
      = (.error e, ⟨[("llama8b", ⟨none, []⟩)], ["l40-8"]⟩, []) :=
  c5_malformed_topology_fails_fast ⟨[("llama8b", ⟨none, []⟩)], ["l40-8"]⟩ .scalar
    (Or.inr rfl)

/-- C8 counterexample: `plan` mode does NOT leave the workload-spec catalog
untouched: planning a topology with one inline definition registers that
definition in the catalog (under `inline_config_1`), so the catalog after
the run differs from the catalog before it. -/
theorem c8_plan_mutates_counterexample :
    main_func "plan" (some (.list [⟨"l40-8", .inlineConfig ⟨none, [("model", "m")]⟩, 1⟩]))
        ⟨[], ["l40-8"]⟩
      = .ok (some [⟨"l40-8", .scriptSpec "inline_config_1", 1⟩],
             ⟨[("inline_config_1", ⟨none, [("model", "m")]⟩)], ["l40-8"]⟩, [])
    ∧ (⟨[("inline_config_1", ⟨none, [("model", "m")]⟩)], ["l40-8"]⟩ : ClusterState).script_specs
        ≠ (⟨[], ["l40-8"]⟩ : ClusterState).script_specs :=
  ⟨rfl, by decide⟩

/-- C8 (amended): `plan` mode compiles and prints the normalized desired
state without performing any scheduler-facing action (no cluster launch, no
termination, no script hand-off) and without touching the device catalog,
but it does run inline-config registration, which can mutate the in-memory
workload-spec catalog. -/
theorem c8_plan_no_actions (topology : Option YamlData) (cl : ClusterState)
    (cfgs : Option (List Config)) (st : ClusterState) (acts : List SchedAction)
    (h : main_func "plan" topology cl = .ok (cfgs, st, acts)) :
    acts = [] ∧ st.devices = cl.devices := by
  unfold main_func at h
  rw [if_pos (by simp)] at h
  rcases hp : prep_cluster topology cl with ⟨r, st', warns⟩
  rw [hp] at h
  cases r with
  | error e => simp at h
  | ok cfgs' =>
    simp at h
    obtain ⟨h1, h2, h3⟩ := h
    subst h2 h3
    constructor
    · rfl
    · have : st'.devices = cl.devices := by
        cases topology with
        | none =>
          have : prep_cluster none cl = (.ok none, cl, []) := rfl
          rw [this] at hp
          cases hp
          rfl
        | some d =>
          cases d with
          | list cs =>
            have hload : prep_cluster (some (.list cs)) cl
                = (.ok (some (compilePipeline cs cl).1), (compilePipeline cs cl).2.1,
                   (compilePipeline cs cl).2.2) := rfl
            rw [hload] at hp
            cases hp
            by_cases he : cs = []
            · subst he; rfl
            · by_cases he2 : (expand_device_wildcards cs cl.devices).1 = []
              · rw [compilePipeline_empty_expansion cs cl he he2]
              · rw [compilePipeline_eq_general cs cl he he2]
          | dict o =>
            cases o with
            | none => simp [prep_cluster, load_topology] at hp
            | some cs =>
              have hload : prep_cluster (some (.dict (some cs))) cl
                  = (.ok (some (compilePipeline cs cl).1), (compilePipeline cs cl).2.1,
                     (compilePipeline cs cl).2.2) := rfl
              rw [hload] at hp
              cases hp
              by_cases he : cs = []
              · subst he; rfl
              · by_cases he2 : (expand_device_wildcards cs cl.devices).1 = []
                · rw [compilePipeline_empty_expansion cs cl he he2]
                · rw [compilePipeline_eq_general cs cl he he2]
          | scalar => simp [prep_cluster, load_topology] at hp
      exact this

/-- C8 witness: the amended theorem at the counterexample's concrete plan
run. -/
theorem c8_plan_no_actions_witness :
    ([] : List SchedAction) = []
    ∧ (⟨[("inline_config_1", ⟨none, [("model", "m")]⟩)], ["l40-8"]⟩
        : ClusterState).devices = (⟨[], ["l40-8"]⟩ : ClusterState).devices :=
  c8_plan_no_actions
    (some (.list [⟨"l40-8", .inlineConfig ⟨none, [("model", "m")]⟩, 1⟩]))
    ⟨[], ["l40-8"]⟩
    (some [⟨"l40-8", .scriptSpec "inline_config_1", 1⟩])
    ⟨[("inline_config_1", ⟨none, [("model", "m")]⟩)], ["l40-8"]⟩ [] rfl

/-! ### Gateway log capture -/

theorem splitFirst (buf : List Char) (h : '\n' ∈ buf) :
    buf = buf.takeWhile (fun c => c ≠ '\n')
      ++ '\n' :: (buf.dropWhile (fun c => c ≠ '\n')).tail := by
  induction buf with
  | nil => simp at h
  | cons a t ih =>
    by_cases ha : a = '\n'
    · subst ha
      simp [List.takeWhile_cons, List.dropWhile_cons]
    · have hmem : '\n' ∈ t := by
        rcases List.mem_cons.mp h with h' | h'
        · exact absurd h'.symm ha
        · exact h'
      have hd : (decide (a ≠ '\n')) = true := by simpa using ha
      simp only [List.takeWhile_cons, List.dropWhile_cons, hd, if_true, List.cons_append]
      exact congrArg (a :: ·) (ih hmem)

theorem rest_length_lt {buf : List Char} (h : '\n' ∈ buf) :
    ((buf.dropWhile (fun c => c ≠ '\n')).tail).length < buf.length := by
  conv_rhs => rw [splitFirst buf h]
  simp
  omega

theorem completeLinesFuel_congr (f1 : Nat) :
    ∀ (f2 : Nat) (buf : List Char), buf.length ≤ f1 → buf.length ≤ f2 →
      completeLinesFuel f1 buf = completeLinesFuel f2 buf := by
  induction f1 with
  | zero =>
    intro f2 buf h1 h2
    have hb : buf = [] := List.eq_nil_of_length_eq_zero (Nat.le_zero.mp h1)
    subst hb
    cases f2 <;> simp [completeLinesFuel]
  | succ f ih =>
    intro f2 buf h1 h2
    by_cases hmem : '\n' ∈ buf
    · have hne : buf ≠ [] := by rintro rfl; simp at hmem
      obtain ⟨m2, rfl⟩ : ∃ m, f2 = m + 1 := by
        cases f2 with
        | zero =>
          exact absurd (List.eq_nil_of_length_eq_zero (Nat.le_zero.mp h2)) hne
        | succ m => exact ⟨m, rfl⟩
      have hr := rest_length_lt hmem
      simp only [completeLinesFuel, if_pos hmem]
      rw [ih m2 ((buf.dropWhile (fun c => c ≠ '\n')).tail) (by omega) (by omega)]
    · cases f2 <;> simp [completeLinesFuel, hmem]

theorem completeLines_neg (buf : List Char) (h : ¬('\n' ∈ buf)) :
    completeLines buf = ([], buf) := by
  unfold completeLines
  cases buf with
  | nil => rfl
  | cons a t => simp [completeLinesFuel, h]

theorem completeLines_pos (buf : List Char) (h : '\n' ∈ buf) :
    completeLines buf
      = ((buf.takeWhile (fun c => c ≠ '\n'))
           :: (completeLines ((buf.dropWhile (fun c => c ≠ '\n')).tail)).1,
         (completeLines ((buf.dropWhile (fun c => c ≠ '\n')).tail)).2) := by
  have hne : buf ≠ [] := by rintro rfl; simp at h
  obtain ⟨a, t, rfl⟩ : ∃ a t, buf = a :: t := by
    cases buf with
    | nil => exact absurd rfl hne
    | cons a t => exact ⟨a, t, rfl⟩
  have hr := rest_length_lt h
  show completeLinesFuel (t.length + 1) (a :: t) = _
  simp only [completeLinesFuel, if_pos h]
  unfold completeLines
  rw [completeLinesFuel_congr t.length
    (((a :: t).dropWhile (fun c => c ≠ '\n')).tail).length
    (((a :: t).dropWhile (fun c => c ≠ '\n')).tail)
    (by simpa using Nat.lt_succ_iff.mp hr) (Nat.le_refl _)]

theorem lineEntries_cons (ts : String) (l : List Char) (ls : List (List Char)) :
    lineEntries ts (l :: ls)
      = (if (pyStrip l).isEmpty then ([] : List String)
         else [logEntry ts (pyStrip l)]) ++ lineEntries ts ls := by
  by_cases h : (pyStrip l).isEmpty = true
  · have h' : pyStrip l = [] := List.isEmpty_iff.mp h
    simp [lineEntries, List.filterMap_cons, h, h']
  · have h' : ¬(pyStrip l = []) := by simpa [List.isEmpty_iff] using h
    simp [lineEntries, List.filterMap_cons, h, h']

theorem drainFuel_eq (ts : String) (fuel : Nat) :
    ∀ (buf : List Char) (logs : List String), buf.length ≤ fuel →
      drainFuel ts fuel buf logs
        = ((completeLines buf).2,
           (lineEntries ts (completeLines buf).1).foldl (dequeAppend 100) logs) := by
  induction fuel with
  | zero =>
    intro buf logs h
    have hb : buf = [] := List.eq_nil_of_length_eq_zero (Nat.le_zero.mp h)
    subst hb
    simp [drainFuel, completeLines, completeLinesFuel, lineEntries]
  | succ f ih =>
    intro buf logs h
    by_cases hmem : '\n' ∈ buf
    · have hr := rest_length_lt hmem
      simp only [drainFuel, if_pos hmem]
      rw [ih _ _ (by omega)]
      rw [completeLines_pos buf hmem]
      rw [lineEntries_cons]
      by_cases hs : (pyStrip (buf.takeWhile (fun c => c ≠ '\n'))).isEmpty = true
      · rw [if_pos hs, if_pos hs]
        simp
      · rw [if_neg hs, if_neg hs]
        simp
    · simp [drainFuel, hmem, completeLines_neg buf hmem, lineEntries]

theorem completeLines_no_newline_aux (n : Nat) :
    ∀ buf : List Char, buf.length ≤ n → '\n' ∉ (completeLines buf).2 := by
  induction n with
  | zero =>
    intro buf h
    have hb : buf = [] := List.eq_nil_of_length_eq_zero (Nat.le_zero.mp h)
    subst hb
    simp [completeLines, completeLinesFuel]
  | succ f ih =>
    intro buf h
    by_cases hmem : '\n' ∈ buf
    · rw [completeLines_pos buf hmem]
      exact ih _ (by have := rest_length_lt hmem; omega)
    · rw [completeLines_neg buf hmem]
      exact hmem

theorem completeLines_no_newline (buf : List Char) : '\n' ∉ (completeLines buf).2 :=
  completeLines_no_newline_aux buf.length buf (Nat.le_refl _)

theorem completeLines_join_aux (n : Nat) :
    ∀ buf : List Char, buf.length ≤ n →
      (completeLines buf).1.foldr (fun l acc => l ++ '\n' :: acc) (completeLines buf).2
        = buf := by
  induction n with
  | zero =>
    intro buf h
    have hb : buf = [] := List.eq_nil_of_length_eq_zero (Nat.le_zero.mp h)
    subst hb
    simp [completeLines, completeLinesFuel]
  | succ f ih =>
    intro buf h
    by_cases hmem : '\n' ∈ buf
    · rw [completeLines_pos buf hmem]
      simp only [List.foldr_cons]
      rw [ih _ (by have := rest_length_lt hmem; omega)]
      exact (splitFirst buf hmem).symm
    · rw [completeLines_neg buf hmem]
      simp

theorem completeLines_join (buf : List Char) :
    (completeLines buf).1.foldr (fun l acc => l ++ '\n' :: acc) (completeLines buf).2
      = buf :=
  completeLines_join_aux buf.length buf (Nat.le_refl _)

theorem dequeAppend_le (logs : List String) (x : String) :
    (dequeAppend 100 logs x).length ≤ 100 := by
  simp [dequeAppend, List.length_drop]
  omega

theorem foldl_dequeAppend_le (es : List String) :
    ∀ logs : List String, logs.length ≤ 100 →
      (es.foldl (dequeAppend 100) logs).length ≤ 100 := by
  induction es with
  | nil => intro logs h; exact h
  | cons e rest ih => intro logs _; exact ih _ (dequeAppend_le logs e)

/-- C10: `GatewayLogCapture.write` appends to the log deque exactly one
timestamped entry per complete newline-terminated line of the buffered text
whose stripped content is non-empty (in order, through the
`deque(maxlen=100)` append); the text after the last newline remains in the
internal buffer (the new buffer contains no newline, and rejoining the
consumed lines with the new buffer reconstructs the old buffer plus the
written text); and the deque never holds more than 100 entries. -/
theorem c10_write_line_buffering (ts : String) (st : LogState) (text : String)
    (hb : st.logs.length ≤ 100) :
    write ts st text
      = ⟨(completeLines (st.buffer ++ text.data)).2,
         (lineEntries ts (completeLines (st.buffer ++ text.data)).1).foldl
           (dequeAppend 100) st.logs⟩
    ∧ '\n' ∉ (write ts st text).buffer
    ∧ (completeLines (st.buffer ++ text.data)).1.foldr (fun l acc => l ++ '\n' :: acc)
        (write ts st text).buffer = st.buffer ++ text.data
    ∧ (write ts st text).logs.length ≤ 100 := by
  have h1 : write ts st text
      = ⟨(completeLines (st.buffer ++ text.data)).2,
         (lineEntries ts (completeLines (st.buffer ++ text.data)).1).foldl
           (dequeAppend 100) st.logs⟩ := by
    simp only [write]
    rw [drainFuel_eq ts (st.buffer ++ text.data).length _ _ (Nat.le_refl _)]
  refine ⟨h1, ?_, ?_, ?_⟩
  · rw [h1]
    exact completeLines_no_newline _
  · rw [h1]
    exact completeLines_join _
  · rw [h1]
    exact foldl_dequeAppend_le _ _ hb

/-- C10 witness: the theorem at a concrete capture state (buffer `ab`, one
old entry) and write text containing one content line, one whitespace-only
line, and a trailing partial line. -/
theorem c10_write_line_buffering_witness :
    write "12:00:00" ⟨"ab".data, ["old"]⟩ "c\n  \nrest"
      = ⟨(completeLines ("ab".data ++ "c\n  \nrest".data)).2,
         (lineEntries "12:00:00" (completeLines ("ab".data ++ "c\n  \nrest".data)).1).foldl
           (dequeAppend 100) ["old"]⟩
    ∧ '\n' ∉ (write "12:00:00" ⟨"ab".data, ["old"]⟩ "c\n  \nrest").buffer
    ∧ (completeLines ("ab".data ++ "c\n  \nrest".data)).1.foldr
        (fun l acc => l ++ '\n' :: acc)
        (write "12:00:00" ⟨"ab".data, ["old"]⟩ "c\n  \nrest").buffer
      = "ab".data ++ "c\n  \nrest".data
    ∧ (write "12:00:00" ⟨"ab".data, ["old"]⟩ "c\n  \nrest").logs.length ≤ 100 :=
  c10_write_line_buffering "12:00:00" ⟨"ab".data, ["old"]⟩ "c\n  \nrest" (by decide)

end Slurmcompose
